import Mathlib

/-!
# Tile-map walking demo (`rpg12/Main.cpp`)

A shallow embedding of the movement loop, the CSV grid loader and the map-chip
drawing routine of `Main.cpp`, followed by the properties proved about them.

Conventions of the embedding.

* `int` values (cell coordinates, tile indices, the facing direction) are
  integers.  The movement loop only adds `±1` to cell coordinates that the
  clamp keeps inside the map, which cannot overflow.  The products that
  `DrawMapChips` forms from a tile index can leave the 32-bit range; they are
  reduced to 32 bits by `wrapInt`.
* `double` values (frame delta time, walk progress) are exact rationals.
* `Grid<int>` is a width, a height and the row-major cell array.  Reading outside
  the grid is undefined behaviour in the library; it is modelled by `none`.
* One pass of the `while (System::Update())` body is `frame`; the keys that
  are pressed and `Scene::DeltaTime()` are its inputs.
-/

namespace Rpg12

/-! ## Constants -/

/-- Size of one map tile in pixels (`ChipSize`). -/
def ChipSize : Int := 32

/-- Tiles per row of the tile sheet (`ChipNumX`). -/
def ChipNumX : Int := 8

/-- Tiles per column of the tile sheet (`ChipNumY`). -/
def ChipNumY : Int := 8

/-- Width of one character sprite in pixels (`CharaSizeX`). -/
def CharaSizeX : Int := 20

/-- Walking speed in cells per second (`walkSpeed`). -/
def walkSpeed : ℚ := 4

/-! ## Points and grids -/

/-- The library type `Point`: a pair of `int` coordinates. -/
structure Point where
  x : Int
  y : Int
  deriving DecidableEq, Repr

/-- The library type `Grid<int>`: `data` holds the cells row by row, the cell
`(x, y)` at index `y * width + x`. -/
structure Grid where
  width : Nat
  height : Nat
  data : List Int
  deriving DecidableEq, Repr

/-- A grid is well formed when its array has one entry per cell. -/
def Grid.WF (g : Grid) : Prop := g.data.length = g.width * g.height

instance (g : Grid) : Decidable g.WF := by unfold Grid.WF; infer_instance

/-- Read of `grid[y][x]` with unsigned indices; `none` outside the grid. -/
def Grid.get? (g : Grid) (x y : Nat) : Option Int :=
  if x < g.width ∧ y < g.height then g.data[y * g.width + x]? else none

/-- Read of `grid[pos]` with a `Point` index; `none` outside the grid. -/
def Grid.at? (g : Grid) (p : Point) : Option Int :=
  if 0 ≤ p.x ∧ p.x < g.width ∧ 0 ≤ p.y ∧ p.y < g.height then
    g.data[p.y.toNat * g.width + p.x.toNat]?
  else none

/-- Write of `grid[y][x] = v`. -/
def Grid.set (g : Grid) (x y : Nat) (v : Int) : Grid :=
  { g with data := g.data.set (y * g.width + x) v }

/-- The constructor `Grid<int>(w, h)`: every cell value-initialised to `0`. -/
def Grid.mk0 (w h : Nat) : Grid :=
  { width := w, height := h, data := List.replicate (w * h) 0 }

/-- The library function `Clamp(v, min, max)`, for `min ≤ max` the value of
`v` limited to the range from `min` to `max`. -/
def Clamp (v lo hi : Int) : Int :=
  if v < lo then lo else if hi < v then hi else v

/-- The value of `static_cast<int>(n - 1)` for a grid dimension `n`: the
unsigned difference wraps for `n = 0` and the cast then yields `-1`. -/
def lastIndex (n : Nat) : Int := (n : Int) - 1

/-! ## Player state and one frame of the movement loop -/

/-- The four arrow keys as reported by `pressed()` during one frame. -/
structure Keys where
  left : Bool
  right : Bool
  up : Bool
  down : Bool
  deriving DecidableEq, Repr

/-- The variables of `Main` that the loop updates; `camera` is the centre last
given to the 2D camera. -/
structure State where
  playerCell : Point
  playerNextCell : Point
  walkProgress : ℚ
  direction : Int
  camera : Point
  deriving DecidableEq

/-- The grids `Main` loads that the movement code reads. -/
structure World where
  mapLayer1 : Grid
  mapCollision : Grid

/-- Body of the `KeyLeft && !KeyRight` arm. -/
def leftArm (k : Keys) (p : Point) : Int × Point :=
  let d : Int := 6
  let p : Point := { p with x := p.x - 1 }
  if k.up && !k.down then (7, { p with y := p.y - 1 })
  else if k.down && !k.up then (5, { p with y := p.y + 1 })
  else (d, p)

/-- Body of the `KeyRight && !KeyLeft` arm. -/
def rightArm (k : Keys) (p : Point) : Int × Point :=
  let d : Int := 2
  let p : Point := { p with x := p.x + 1 }
  if k.up && !k.down then (1, { p with y := p.y - 1 })
  else if k.down && !k.up then (3, { p with y := p.y + 1 })
  else (d, p)

/-- Body of the `KeyUp && !KeyDown` arm, with its nested Left/Right checks. -/
def upArm (k : Keys) (p : Point) : Int × Point :=
  let p : Point := { p with y := p.y - 1 }
  let d : Int := 0
  if k.left && !k.right then (7, { p with x := p.x - 1 })
  else if k.right && !k.left then (1, { p with x := p.x + 1 })
  else (d, p)

/-- Body of the `KeyDown && !KeyUp` arm, with its nested Left/Right checks. -/
def downArm (k : Keys) (p : Point) : Int × Point :=
  let d : Int := 4
  let p : Point := { p with y := p.y + 1 }
  if k.left && !k.right then (5, { p with x := p.x - 1 })
  else if k.right && !k.left then (3, { p with x := p.x + 1 })
  else (d, p)

/-- The `if / else if` chain over the arrow keys: the new `direction` and the
requested `playerNextCell`, before clamping. -/
def keyStep (k : Keys) (direction : Int) (p : Point) : Int × Point :=
  if k.left && !k.right then leftArm k p
  else if k.right && !k.left then rightArm k p
  else if k.up && !k.down then upArm k p
  else if k.down && !k.up then downArm k p
  else (direction, p)

/-- The two `Clamp` calls: each coordinate is clamped to the range of
`mapLayer1`. -/
def clampCell (m : Grid) (p : Point) : Point :=
  { x := Clamp p.x 0 (lastIndex m.width), y := Clamp p.y 0 (lastIndex m.height) }

/-- The cell used as index in `mapCollision[playerNextCell]` when the input
block runs. -/
def lookupCell (w : World) (s : State) (k : Keys) : Point :=
  clampCell w.mapLayer1 (keyStep k s.direction s.playerNextCell).2

/-- The block guarded by `playerCell == playerNextCell`: key handling, clamp
and collision check.  `none` when the collision lookup leaves the grid. -/
def inputStep (w : World) (s : State) (k : Keys) : Option State :=
  if s.playerCell = s.playerNextCell then
    let d := (keyStep k s.direction s.playerNextCell).1
    let n := lookupCell w s k
    match w.mapCollision.at? n with
    | none => none
    | some c =>
      if c ≠ -1 then
        some { s with direction := d, playerNextCell := s.playerCell }
      else if s.playerCell ≠ n then
        some { s with direction := d, playerNextCell := n, walkProgress := 0 }
      else
        some { s with direction := d, playerNextCell := n }
  else some s

/-- The conversion `Vec2::asPoint()`: truncation towards zero. -/
def asPoint (q : ℚ) : Int := Int.tdiv q.num q.den

/-- The camera centre computed in the walking block:
`(playerCell.lerp(playerNextCell, f) * ChipSize + Vec2(16, 16)).asPoint()`. -/
def cameraTarget (c n : Point) (f : ℚ) : Point :=
  { x := asPoint (((c.x : ℚ) + ((n.x : ℚ) - c.x) * f) * ChipSize + (ChipSize / 2 : Int)),
    y := asPoint (((c.y : ℚ) + ((n.y : ℚ) - c.y) * f) * ChipSize + (ChipSize / 2 : Int)) }

/-- The value of `walkProgress` after `walkProgress += DeltaTime * walkSpeed`;
this is the factor handed to `lerp`. -/
def advanced (s : State) (dt : ℚ) : ℚ := s.walkProgress + dt * walkSpeed

/-- The block guarded by `playerCell != playerNextCell`: advance the walk,
move the camera, and finish the walk once the progress reaches `1`. -/
def walkStep (s : State) (dt : ℚ) : State :=
  if s.playerCell ≠ s.playerNextCell then
    let p := advanced s dt
    let cam := cameraTarget s.playerCell s.playerNextCell p
    if p ≥ 1 then
      { s with playerCell := s.playerNextCell, walkProgress := 1, camera := cam }
    else
      { s with walkProgress := p, camera := cam }
  else s

/-- The movement part of one pass of the main loop. -/
def frame (w : World) (s : State) (k : Keys) (dt : ℚ) : Option State :=
  (inputStep w s k).map (fun s1 => walkStep s1 dt)

/-- The loop run over a list of per-frame inputs. -/
def run (w : World) (s : State) : List (Keys × ℚ) → Option State
  | [] => some s
  | (k, dt) :: rest =>
    match frame w s k dt with
    | none => none
    | some s1 => run w s1 rest

/-- The centre of a cell in pixels, as used for the initial camera. -/
def cellCentre (c : Point) : Point :=
  { x := c.x * ChipSize + ChipSize / 2, y := c.y * ChipSize + ChipSize / 2 }

/-- The state of `Main` when the loop is entered. -/
def initState : State :=
  { playerCell := ⟨7, 10⟩, playerNextCell := ⟨7, 10⟩, walkProgress := 1,
    direction := 4, camera := cellCentre ⟨7, 10⟩ }

/-- The variable `playerFoot` computed before the player is drawn. -/
def playerFoot (walkProgress : ℚ) : Int :=
  if walkProgress < 1 / 2 then -1
  else if walkProgress < 1 then 1
  else 0

/-- The table `startPosOfSiv3D`: sprite origin of the standing image for each
of the eight directions. -/
def startPosOfSiv3D : List (Int × Int) :=
  [(0 + CharaSizeX, 84), (60 + CharaSizeX, 84), (0 + CharaSizeX, 56), (60 + CharaSizeX, 28),
   (0 + CharaSizeX, 0), (60 + CharaSizeX, 0), (0 + CharaSizeX, 28), (60 + CharaSizeX, 56)]

/-! ## Drawing a map layer -/

/-- The value a 32-bit `int` holds for the mathematical result `n` of an
arithmetic expression: `n` reduced modulo `2^32` into the two's-complement
range from `-2^31` to `2^31 - 1`. -/
def wrapInt (n : Int) : Int := (n + 2147483648) % 4294967296 - 2147483648

/-- The local `chipX` of `DrawMapChips`: left edge of tile `mapChip` in the
tile sheet, computed in `int`. -/
def chipX (mapChip : Int) : Int := wrapInt ((mapChip.tmod ChipNumX) * ChipSize)

/-- The local `chipY` of `DrawMapChips`: top edge of tile `mapChip` in the
tile sheet, computed in `int`. -/
def chipY (mapChip : Int) : Int := wrapInt ((mapChip.tdiv ChipNumY) * ChipSize)

/-- The library type `CSVData` after reading a file: whether the read
succeeded (`operator bool`) and the rows, each cell already parsed by
`get<int>`. -/
structure CSVData where
  loaded : Bool
  rows : List (List Int)

/-- The ways `LoadCSV` can fail: the `Error` it throws itself, and a read of
a cell the CSV does not have. -/
inductive LoadError where
  | readFailed
  | cellMissing
  deriving DecidableEq, Repr

/-- The call `csv.columns(r)`. -/
def CSVData.columns (csv : CSVData) (r : Nat) : Nat :=
  match csv.rows[r]? with
  | some row => row.length
  | none => 0

/-- The call `csv.get<int>(r, c)`. -/
def CSVData.get (csv : CSVData) (r c : Nat) : Except LoadError Int :=
  match csv.rows[r]? with
  | none => .error .cellMissing
  | some row =>
    match row[c]? with
    | none => .error .cellMissing
    | some v => .ok v

/-- Body of the inner loop of `LoadCSV`: `map[y][x] = csv.get<int>(y, x)`. -/
def loadCell (csv : CSVData) (y : Nat) (map : Grid) (x : Nat) : Except LoadError Grid :=
  match csv.get y x with
  | .error e => .error e
  | .ok v => .ok (map.set x y v)

/-- The inner loop of `LoadCSV` over the columns of row `y`. -/
def loadRow (csv : CSVData) (xCount : Nat) (map : Grid) (y : Nat) : Except LoadError Grid :=
  (List.range xCount).foldlM (loadCell csv y) map

/-- The function `LoadCSV`. -/
def LoadCSV (csv : CSVData) : Except LoadError Grid :=
  if !csv.loaded then .error .readFailed
  else
    let xCount := csv.columns 0
    let yCount := csv.rows.length
    (List.range yCount).foldlM (loadRow csv xCount) (Grid.mk0 xCount yCount)

/-! ## Vocabulary of the specification -/

/-- Net horizontal input: `-1` for Left without Right, `+1` for Right without
Left, `0` otherwise. -/
def netX (k : Keys) : Int :=
  if k.left ∧ ¬ k.right then -1 else if k.right ∧ ¬ k.left then 1 else 0

/-- Net vertical input: `-1` for Up without Down, `+1` for Down without Up,
`0` otherwise. -/
def netY (k : Keys) : Int :=
  if k.up ∧ ¬ k.down then -1 else if k.down ∧ ¬ k.up then 1 else 0

/-- Unit step of a compass direction, north = 0 and clockwise to
north-west = 7. -/
def offset (d : Int) : Point :=
  if d = 0 then ⟨0, -1⟩
  else if d = 1 then ⟨1, -1⟩
  else if d = 2 then ⟨1, 0⟩
  else if d = 3 then ⟨1, 1⟩
  else if d = 4 then ⟨0, 1⟩
  else if d = 5 then ⟨-1, 1⟩
  else if d = 6 then ⟨-1, 0⟩
  else if d = 7 then ⟨-1, -1⟩
  else ⟨0, 0⟩

/-- Compass index of a unit step `(dx, dy)`. -/
def compassIndex (dx dy : Int) : Int :=
  if dx = 0 ∧ dy = -1 then 0
  else if dx = 1 ∧ dy = -1 then 1
  else if dx = 1 ∧ dy = 0 then 2
  else if dx = 1 ∧ dy = 1 then 3
  else if dx = 0 ∧ dy = 1 then 4
  else if dx = -1 ∧ dy = 1 then 5
  else if dx = -1 ∧ dy = 0 then 6
  else 7

/-- Componentwise sum of two points. -/
def Point.add (p q : Point) : Point := ⟨p.x + q.x, p.y + q.y⟩

/-- A cell lies inside a grid. -/
def Grid.inside (g : Grid) (p : Point) : Prop :=
  0 ≤ p.x ∧ p.x < g.width ∧ 0 ≤ p.y ∧ p.y < g.height

instance (g : Grid) (p : Point) : Decidable (g.inside p) := by
  unfold Grid.inside; infer_instance

/-- Sum of the delta times of a list of frame inputs. -/
def totalTime (l : List (Keys × ℚ)) : ℚ := (l.map Prod.snd).sum

/-- All four keys released. -/
def noKeys : Keys := ⟨false, false, false, false⟩

/-- Only the Right key pressed. -/
def keyRight : Keys := ⟨false, true, false, false⟩

/-- Only the Left key pressed. -/
def keyLeft : Keys := ⟨true, false, false, false⟩

/-- Left and Up pressed together. -/
def keyLeftUp : Keys := ⟨true, false, true, false⟩

/-- A grid of the given size with every cell equal to `v`. -/
def Grid.const (w h : Nat) (v : Int) : Grid :=
  { width := w, height := h, data := List.replicate (w * h) v }

/-- A sample world: a 16 x 16 map on which every cell is walkable. -/
def openWorld : World :=
  { mapLayer1 := Grid.const 16 16 0, mapCollision := Grid.const 16 16 (-1) }

/-- A player standing at the left edge of the map, at cell `(0, 5)`. -/
def edgeState : State :=
  { playerCell := ⟨0, 5⟩, playerNextCell := ⟨0, 5⟩, walkProgress := 1,
    direction := 4, camera := cellCentre ⟨0, 5⟩ }

end Rpg12

namespace Rpg12

/-! ## Key handling -/

/-- C3: for a player at rest and each of the 16 key combinations, the cell
requested before clamping is `playerCell + (dx, dy)` for the net input
`(dx, dy)`, and the direction becomes the compass index of `(dx, dy)` when the
net input is non-zero and is unchanged otherwise. -/
theorem keyStep_resolves (s : State) (k : Keys)
    (hrest : s.playerCell = s.playerNextCell) :
    (keyStep k s.direction s.playerNextCell).2 = s.playerCell.add ⟨netX k, netY k⟩ ∧
    (keyStep k s.direction s.playerNextCell).1 =
      (if netX k = 0 ∧ netY k = 0 then s.direction
       else compassIndex (netX k) (netY k)) := by
  rw [hrest]
  rcases k with ⟨l, r, u, d⟩
  cases l <;> cases r <;> cases u <;> cases d <;>
    simp [keyStep, leftArm, rightArm, upArm, downArm, netX, netY, compassIndex, Point.add] <;>
    omega

/-- Witness for C3 at the initial state with Left and Up pressed. -/
theorem keyStep_resolves_witness :
    initState.playerCell = initState.playerNextCell ∧
    (keyStep keyLeftUp initState.direction initState.playerNextCell).2
      = initState.playerCell.add ⟨netX keyLeftUp, netY keyLeftUp⟩ ∧
    (keyStep keyLeftUp initState.direction initState.playerNextCell).1 =
      (if netX keyLeftUp = 0 ∧ netY keyLeftUp = 0 then initState.direction
       else compassIndex (netX keyLeftUp) (netY keyLeftUp)) :=
  ⟨rfl, keyStep_resolves initState keyLeftUp rfl⟩

/-- The direction the key chain yields always lies in `0..7` when the old one
does. -/
theorem keyStep_direction_range (k : Keys) (d : Int) (p : Point)
    (hd : 0 ≤ d ∧ d ≤ 7) : 0 ≤ (keyStep k d p).1 ∧ (keyStep k d p).1 ≤ 7 := by
  rcases k with ⟨l, r, u, dn⟩
  cases l <;> cases r <;> cases u <;> cases dn <;>
    simp [keyStep, leftArm, rightArm, upArm, downArm, hd]

/-- What the input block does, case by case. -/
theorem inputStep_cases (w : World) (s s1 : State) (k : Keys)
    (h : inputStep w s k = some s1) :
    s1.playerCell = s.playerCell ∧ s1.camera = s.camera ∧
    ((s.playerCell ≠ s.playerNextCell ∧ s1 = s) ∨
     (s.playerCell = s.playerNextCell ∧
      s1.direction = (keyStep k s.direction s.playerNextCell).1 ∧
      ∃ c, w.mapCollision.at? (lookupCell w s k) = some c ∧
        ((c ≠ -1 ∧ s1.playerNextCell = s.playerCell ∧ s1.walkProgress = s.walkProgress) ∨
         (c = -1 ∧ s.playerCell ≠ lookupCell w s k ∧
            s1.playerNextCell = lookupCell w s k ∧ s1.walkProgress = 0) ∨
         (c = -1 ∧ s.playerCell = lookupCell w s k ∧
            s1.playerNextCell = s.playerCell ∧ s1.walkProgress = s.walkProgress)))) := by
  unfold inputStep at h
  by_cases hrest : s.playerCell = s.playerNextCell
  · rw [if_pos hrest] at h
    cases hc : w.mapCollision.at? (lookupCell w s k) with
    | none => simp [hc] at h
    | some c =>
      simp only [hc] at h
      split_ifs at h with h1 h2
      · injection h with h
        subst h
        exact ⟨rfl, rfl, Or.inr ⟨hrest, rfl, c, rfl, Or.inl ⟨h1, rfl, rfl⟩⟩⟩
      · injection h with h
        subst h
        have hc1 : c = -1 := not_not.mp h1
        exact ⟨rfl, rfl, Or.inr ⟨hrest, rfl, c, rfl, Or.inr (Or.inl ⟨hc1, h2, rfl, rfl⟩)⟩⟩
      · injection h with h
        subst h
        have hc1 : c = -1 := not_not.mp h1
        have hn : s.playerCell = lookupCell w s k := not_not.mp h2
        exact ⟨rfl, rfl, Or.inr ⟨hrest, rfl, c, rfl, Or.inr (Or.inr ⟨hc1, hn, hn.symm, rfl⟩)⟩⟩
  · rw [if_neg hrest] at h
    simp at h
    subst h
    exact ⟨rfl, rfl, Or.inl ⟨hrest, rfl⟩⟩

/-- What the walking block does, case by case. -/
theorem walkStep_cases (s : State) (dt : ℚ) :
    (walkStep s dt).playerNextCell = s.playerNextCell ∧
    (walkStep s dt).direction = s.direction ∧
    ((s.playerCell = s.playerNextCell ∧ walkStep s dt = s) ∨
     (s.playerCell ≠ s.playerNextCell ∧ 1 ≤ advanced s dt ∧
        (walkStep s dt).playerCell = s.playerNextCell ∧ (walkStep s dt).walkProgress = 1 ∧
        (walkStep s dt).camera = cameraTarget s.playerCell s.playerNextCell (advanced s dt)) ∨
     (s.playerCell ≠ s.playerNextCell ∧ advanced s dt < 1 ∧
        (walkStep s dt).playerCell = s.playerCell ∧
        (walkStep s dt).walkProgress = advanced s dt ∧
        (walkStep s dt).camera = cameraTarget s.playerCell s.playerNextCell (advanced s dt))) := by
  unfold walkStep
  by_cases hrest : s.playerCell = s.playerNextCell
  · simp [hrest]
  · by_cases hp : 1 ≤ advanced s dt
    · simp [hrest, hp]
    · have hp2 : advanced s dt < 1 := lt_of_not_le hp
      simp [hrest, hp, hp2]

/-- A frame is the input block followed by the walking block. -/
theorem frame_eq_some (w : World) (s s2 : State) (k : Keys) (dt : ℚ)
    (h : frame w s k dt = some s2) :
    ∃ s1, inputStep w s k = some s1 ∧ s2 = walkStep s1 dt := by
  unfold frame at h
  cases h1 : inputStep w s k with
  | none => simp [h1] at h
  | some s1 =>
    simp [h1] at h
    exact ⟨s1, rfl, h.symm⟩

/-- A property kept by every frame holds after any run that starts with it. -/
theorem run_preserves (w : World) (P : State → Prop)
    (hstep : ∀ s k dt s2, P s → frame w s k dt = some s2 → P s2) :
    ∀ (inputs : List (Keys × ℚ)) (s s2 : State), P s → run w s inputs = some s2 → P s2 := by
  intro inputs
  induction inputs with
  | nil =>
    intro s s2 hP h
    simp [run] at h
    subst h
    exact hP
  | cons i rest ih =>
    intro s s2 hP h
    obtain ⟨k, dt⟩ := i
    simp only [run] at h
    cases hf : frame w s k dt with
    | none => simp [hf] at h
    | some s1 =>
      simp only [hf] at h
      exact ih s1 s2 (hstep s k dt s1 hP hf) h

/-- A property kept by every frame with a non-negative delta time holds after
any run with non-negative delta times that starts with it. -/
theorem run_preserves_nonneg (w : World) (P : State → Prop)
    (hstep : ∀ s k dt s2, 0 ≤ dt → P s → frame w s k dt = some s2 → P s2) :
    ∀ (inputs : List (Keys × ℚ)) (s s2 : State), (∀ i ∈ inputs, 0 ≤ i.2) →
      P s → run w s inputs = some s2 → P s2 := by
  intro inputs
  induction inputs with
  | nil =>
    intro s s2 _ hP h
    simp [run] at h
    subst h
    exact hP
  | cons i rest ih =>
    intro s s2 hnn hP h
    obtain ⟨k, dt⟩ := i
    simp only [run] at h
    cases hf : frame w s k dt with
    | none => simp [hf] at h
    | some s1 =>
      simp only [hf] at h
      have hdt : 0 ≤ dt := hnn (k, dt) (List.mem_cons_self _ _)
      exact ih s1 s2 (fun i hi => hnn i (List.mem_cons_of_mem _ hi))
        (hstep s k dt s1 hdt hP hf) h

/-! ## Reading grids -/

/-- Row-major indices of cells inside a grid are inside its array. -/
theorem index_lt (w h x y : Nat) (hx : x < w) (hy : y < h) : y * w + x < w * h := by
  have h1 : (y + 1) * w ≤ h * w := Nat.mul_le_mul_right w hy
  have h2 : (y + 1) * w = y * w + w := by ring
  have h3 : h * w = w * h := Nat.mul_comm h w
  omega

/-- Every cell inside a constant grid reads as the constant. -/
theorem const_at? (w h : Nat) (v : Int) (p : Point) (hp : (Grid.const w h v).inside p) :
    (Grid.const w h v).at? p = some v := by
  unfold Grid.inside at hp
  simp only [Grid.const] at hp
  obtain ⟨hx0, hx, hy0, hy⟩ := hp
  have hlt : p.y.toNat * w + p.x.toNat < w * h :=
    index_lt w h p.x.toNat p.y.toNat (by omega) (by omega)
  simp only [Grid.at?, Grid.const]
  rw [if_pos ⟨hx0, hx, hy0, hy⟩, List.getElem?_replicate, if_pos hlt]

/-! ## Invariants of the movement loop -/

/-- C5: after any number of frames from the initial state the facing
direction lies in `0..7`, so it is a valid index into the eight-entry table
`startPosOfSiv3D`. -/
theorem direction_in_range (w : World) (inputs : List (Keys × ℚ)) (s : State)
    (h : run w initState inputs = some s) :
    0 ≤ s.direction ∧ s.direction ≤ 7 ∧ s.direction.toNat < startPosOfSiv3D.length := by
  have key : 0 ≤ s.direction ∧ s.direction ≤ 7 := by
    refine run_preserves w (fun s => 0 ≤ s.direction ∧ s.direction ≤ 7) ?_ inputs initState s
      (by simp [initState]) h
    intro s k dt s2 hP hf
    obtain ⟨s1, h1, rfl⟩ := frame_eq_some w s s2 k dt hf
    have hw := (walkStep_cases s1 dt).2.1
    rw [hw]
    obtain ⟨-, -, hc⟩ := inputStep_cases w s s1 k h1
    rcases hc with ⟨-, rfl⟩ | ⟨-, hd, -⟩
    · exact hP
    · rw [hd]
      exact keyStep_direction_range k s.direction s.playerNextCell hP
  refine ⟨key.1, key.2, ?_⟩
  have : startPosOfSiv3D.length = 8 := rfl
  rw [this]
  omega

/-! ## Sample runs -/

/-- In the sample world the Right key starts a walk from the initial cell. -/
theorem inputStep_open_right :
    inputStep openWorld initState keyRight
      = some ⟨⟨7, 10⟩, ⟨8, 10⟩, 0, 2, ⟨240, 336⟩⟩ := by
  set_option maxRecDepth 100000 in decide

/-- One long frame with Right held: the walk starts and completes at once. -/
theorem run_open_right_half :
    run openWorld initState [(keyRight, 1 / 2)]
      = some ⟨⟨8, 10⟩, ⟨8, 10⟩, 1, 2, ⟨304, 336⟩⟩ := by
  simp only [run, frame, inputStep_open_right, Option.map]
  norm_num [walkStep, advanced, walkSpeed, cameraTarget, asPoint, ChipSize]

/-- One short frame with Right held: the walk starts and is half done. -/
theorem run_open_right_eighth :
    run openWorld initState [(keyRight, 1 / 8)]
      = some ⟨⟨7, 10⟩, ⟨8, 10⟩, 1 / 2, 2, ⟨256, 336⟩⟩ := by
  simp only [run, frame, inputStep_open_right, Option.map]
  norm_num [walkStep, advanced, walkSpeed, cameraTarget, asPoint, ChipSize]

/-- Witness for C5: one frame with the Right key held. -/
theorem direction_in_range_witness :
    run openWorld initState [(keyRight, 1 / 2)]
      = some ⟨⟨8, 10⟩, ⟨8, 10⟩, 1, 2, ⟨304, 336⟩⟩ ∧
    (0 : Int) ≤ 2 ∧ (2 : Int) ≤ 7 ∧ (2 : Int).toNat < startPosOfSiv3D.length :=
  ⟨run_open_right_half, direction_in_range openWorld [(keyRight, 1 / 2)] _ run_open_right_half⟩

/-- C4: from the initial state, with non-negative frame delta times, the walk
progress lies in `[0, 1]` at the end of every frame. -/
theorem walkProgress_in_unit (w : World) (inputs : List (Keys × ℚ)) (s : State)
    (hnn : ∀ i ∈ inputs, 0 ≤ i.2) (h : run w initState inputs = some s) :
    0 ≤ s.walkProgress ∧ s.walkProgress ≤ 1 := by
  refine run_preserves_nonneg w (fun s => 0 ≤ s.walkProgress ∧ s.walkProgress ≤ 1) ?_
    inputs initState s hnn (by simp [initState]) h
  intro s k dt s2 hdt hP hf
  obtain ⟨s1, h1, rfl⟩ := frame_eq_some w s s2 k dt hf
  have h1P : 0 ≤ s1.walkProgress ∧ s1.walkProgress ≤ 1 := by
    obtain ⟨-, -, hc⟩ := inputStep_cases w s s1 k h1
    rcases hc with ⟨-, rfl⟩ | ⟨-, -, c, -, hc⟩
    · exact hP
    · rcases hc with ⟨-, -, hw⟩ | ⟨-, -, -, hw⟩ | ⟨-, -, -, hw⟩
      · rw [hw]; exact hP
      · rw [hw]; norm_num
      · rw [hw]; exact hP
  obtain ⟨-, -, hc⟩ := walkStep_cases s1 dt
  rcases hc with ⟨-, he⟩ | ⟨-, -, -, hw, -⟩ | ⟨-, hlt, -, hw, -⟩
  · rw [he]; exact h1P
  · rw [hw]; norm_num
  · rw [hw]
    refine ⟨?_, le_of_lt hlt⟩
    unfold advanced walkSpeed
    have := h1P.1
    positivity

/-- Witness for C4: a short frame leaves the walk half done. -/
theorem walkProgress_in_unit_witness :
    (∀ i ∈ [(keyRight, (1 / 8 : ℚ))], 0 ≤ i.2) ∧
    run openWorld initState [(keyRight, 1 / 8)]
      = some ⟨⟨7, 10⟩, ⟨8, 10⟩, 1 / 2, 2, ⟨256, 336⟩⟩ ∧
    (0 : ℚ) ≤ 1 / 2 ∧ (1 / 2 : ℚ) ≤ 1 :=
  ⟨by simp, run_open_right_eighth,
    walkProgress_in_unit openWorld [(keyRight, 1 / 8)] _ (by simp) run_open_right_eighth⟩

/-- C14: after any number of frames from the initial state the player is at
rest exactly when the walk progress is `1`; hence the foot offset is `0`
exactly at rest, `-1` while walking with progress below one half, and `+1`
while walking with progress from one half up to (not including) `1`. -/
theorem rest_iff_progress_one (w : World) (inputs : List (Keys × ℚ)) (s : State)
    (h : run w initState inputs = some s) :
    (s.playerCell = s.playerNextCell ↔ s.walkProgress = 1) ∧
    (playerFoot s.walkProgress = 0 ↔ s.playerCell = s.playerNextCell) ∧
    (s.playerCell ≠ s.playerNextCell → s.walkProgress < 1 / 2 →
      playerFoot s.walkProgress = -1) ∧
    (s.playerCell ≠ s.playerNextCell → 1 / 2 ≤ s.walkProgress → s.walkProgress < 1 →
      playerFoot s.walkProgress = 1) := by
  have key : (s.playerCell = s.playerNextCell → s.walkProgress = 1) ∧
      (s.playerCell ≠ s.playerNextCell → s.walkProgress < 1) := by
    refine run_preserves w (fun s => (s.playerCell = s.playerNextCell → s.walkProgress = 1) ∧
      (s.playerCell ≠ s.playerNextCell → s.walkProgress < 1)) ?_ inputs initState s
      (by simp [initState]) h
    intro s k dt s2 hP hf
    obtain ⟨s1, h1, rfl⟩ := frame_eq_some w s s2 k dt hf
    have h1P : (s1.playerCell = s1.playerNextCell → s1.walkProgress = 1) ∧
        (s1.playerCell ≠ s1.playerNextCell → s1.walkProgress < 1) := by
      obtain ⟨hcell, -, hc⟩ := inputStep_cases w s s1 k h1
      rcases hc with ⟨-, rfl⟩ | ⟨hrest, -, c, -, hc⟩
      · exact hP
      · rcases hc with ⟨-, hn, hw⟩ | ⟨-, hne, hn, hw⟩ | ⟨-, -, hn, hw⟩
        · rw [hw, hcell, hn]
          exact ⟨fun _ => hP.1 hrest, fun hne => absurd rfl hne⟩
        · rw [hw, hcell, hn]
          exact ⟨fun he => absurd he hne, fun _ => by norm_num⟩
        · rw [hw, hcell, hn]
          exact ⟨fun _ => hP.1 hrest, fun hne => absurd rfl hne⟩
    obtain ⟨hnext, -, hc⟩ := walkStep_cases s1 dt
    rcases hc with ⟨-, he⟩ | ⟨-, -, hcell, hw, -⟩ | ⟨hne, hlt, hcell, hw, -⟩
    · rw [he]; exact h1P
    · rw [hw, hcell, hnext]
      exact ⟨fun _ => rfl, fun hne => absurd rfl hne⟩
    · rw [hw, hcell, hnext]
      exact ⟨fun he => absurd he hne, fun _ => hlt⟩
  obtain ⟨hr, hwk⟩ := key
  have hiff : s.playerCell = s.playerNextCell ↔ s.walkProgress = 1 := by
    constructor
    · exact hr
    · intro h1
      by_contra hne
      have := hwk hne
      rw [h1] at this
      exact lt_irrefl _ this
  refine ⟨hiff, ?_, ?_, ?_⟩
  · constructor
    · intro hf
      by_contra hne
      have hlt := hwk hne
      unfold playerFoot at hf
      split_ifs at hf with h2
      exact absurd hf (by decide)
    · intro he
      rw [hr he]
      norm_num [playerFoot]
  · intro _ hlt
    simp only [playerFoot, if_pos hlt]
  · intro _ hge hlt
    have : ¬ s.walkProgress < 1 / 2 := not_lt.mpr hge
    simp only [playerFoot, if_neg this, if_pos hlt]

/-- Witness for C14: a short frame leaves the player walking, half way. -/
theorem rest_iff_progress_one_witness :
    run openWorld initState [(keyRight, 1 / 8)]
      = some ⟨⟨7, 10⟩, ⟨8, 10⟩, 1 / 2, 2, ⟨256, 336⟩⟩ ∧
    (((⟨7, 10⟩ : Point) = ⟨8, 10⟩ ↔ (1 / 2 : ℚ) = 1) ∧
    (playerFoot (1 / 2) = 0 ↔ (⟨7, 10⟩ : Point) = ⟨8, 10⟩) ∧
    ((⟨7, 10⟩ : Point) ≠ ⟨8, 10⟩ → (1 / 2 : ℚ) < 1 / 2 → playerFoot (1 / 2) = -1) ∧
    ((⟨7, 10⟩ : Point) ≠ ⟨8, 10⟩ → (1 / 2 : ℚ) ≤ 1 / 2 → (1 / 2 : ℚ) < 1 →
      playerFoot (1 / 2) = 1)) :=
  ⟨run_open_right_eighth,
    rest_iff_progress_one openWorld [(keyRight, 1 / 8)] _ run_open_right_eighth⟩

/-- C1: after any number of frames from the initial state, a pending target
cell has collision entry `-1`; a player cell other than the initial one has
collision entry `-1`; in the next frame the input block only ever leaves a
target that differs from the player cell when the collision entry of that
target is `-1`; and whenever the next frame changes the player cell, the new
cell has collision entry `-1`. -/
theorem never_enters_blocked (w : World) (inputs : List (Keys × ℚ)) (s : State)
    (h : run w initState inputs = some s) :
    (s.playerCell ≠ s.playerNextCell → w.mapCollision.at? s.playerNextCell = some (-1)) ∧
    (s.playerCell ≠ initState.playerCell → w.mapCollision.at? s.playerCell = some (-1)) ∧
    (∀ k s1, inputStep w s k = some s1 → s1.playerNextCell ≠ s1.playerCell →
      w.mapCollision.at? s1.playerNextCell = some (-1)) ∧
    (∀ k dt s2, frame w s k dt = some s2 → s2.playerCell ≠ s.playerCell →
      w.mapCollision.at? s2.playerCell = some (-1)) := by
  have key : (s.playerCell ≠ s.playerNextCell →
        w.mapCollision.at? s.playerNextCell = some (-1)) ∧
      (s.playerCell ≠ initState.playerCell → w.mapCollision.at? s.playerCell = some (-1)) := by
    refine run_preserves w (fun s => (s.playerCell ≠ s.playerNextCell →
        w.mapCollision.at? s.playerNextCell = some (-1)) ∧
      (s.playerCell ≠ initState.playerCell → w.mapCollision.at? s.playerCell = some (-1)))
      ?_ inputs initState s (by simp [initState]) h
    intro s k dt s2 hP hf
    obtain ⟨s1, h1, rfl⟩ := frame_eq_some w s s2 k dt hf
    have h1P : (s1.playerCell ≠ s1.playerNextCell →
          w.mapCollision.at? s1.playerNextCell = some (-1)) ∧
        (s1.playerCell ≠ initState.playerCell →
          w.mapCollision.at? s1.playerCell = some (-1)) := by
      obtain ⟨hcell, -, hc⟩ := inputStep_cases w s s1 k h1
      rcases hc with ⟨-, rfl⟩ | ⟨-, -, c, hat, hc⟩
      · exact hP
      · rw [hcell]
        refine ⟨?_, hP.2⟩
        rcases hc with ⟨-, hn, -⟩ | ⟨hc1, -, hn, -⟩ | ⟨-, -, hn, -⟩
        · rw [hn]; exact fun hne => absurd rfl hne
        · rw [hn, hat, hc1]; exact fun _ => rfl
        · rw [hn]; exact fun hne => absurd rfl hne
    obtain ⟨hnext, -, hc⟩ := walkStep_cases s1 dt
    rcases hc with ⟨-, he⟩ | ⟨hne, -, hcell, -, -⟩ | ⟨-, -, hcell, -, -⟩
    · rw [he]; exact h1P
    · rw [hcell, hnext]
      exact ⟨fun hne2 => absurd rfl hne2, fun _ => h1P.1 hne⟩
    · rw [hcell, hnext]
      exact h1P
  have h3 : ∀ k s1, inputStep w s k = some s1 → s1.playerNextCell ≠ s1.playerCell →
      w.mapCollision.at? s1.playerNextCell = some (-1) := by
    intro k s1 h1 hne
    obtain ⟨hcell, -, hc⟩ := inputStep_cases w s s1 k h1
    rcases hc with ⟨hw, rfl⟩ | ⟨-, -, c, hat, hc⟩
    · exact key.1 hw
    · rcases hc with ⟨-, hn, -⟩ | ⟨hc1, -, hn, -⟩ | ⟨-, -, hn, -⟩
      · exact absurd (hn.trans hcell.symm) hne
      · rw [hn, hat, hc1]
      · exact absurd (hn.trans hcell.symm) hne
  refine ⟨key.1, key.2, h3, ?_⟩
  intro k dt s2 hf hmoved
  obtain ⟨s1, h1, rfl⟩ := frame_eq_some w s s2 k dt hf
  obtain ⟨hcell, -, -⟩ := inputStep_cases w s s1 k h1
  obtain ⟨-, -, hc⟩ := walkStep_cases s1 dt
  rcases hc with ⟨-, he⟩ | ⟨hne, -, hcell2, -, -⟩ | ⟨-, -, hcell2, -, -⟩
  · rw [he] at hmoved
    exact absurd hcell hmoved
  · rw [hcell2]
    exact h3 k s1 h1 (fun e => hne e.symm)
  · rw [hcell2] at hmoved
    exact absurd hcell hmoved

/-- Witness for C1: after walking one cell to the right in the sample world. -/
theorem never_enters_blocked_witness :
    run openWorld initState [(keyRight, 1 / 2)]
      = some ⟨⟨8, 10⟩, ⟨8, 10⟩, 1, 2, ⟨304, 336⟩⟩ ∧
    (((⟨8, 10⟩ : Point) ≠ ⟨8, 10⟩ → openWorld.mapCollision.at? ⟨8, 10⟩ = some (-1)) ∧
    ((⟨8, 10⟩ : Point) ≠ initState.playerCell →
      openWorld.mapCollision.at? ⟨8, 10⟩ = some (-1)) ∧
    (∀ k s1, inputStep openWorld ⟨⟨8, 10⟩, ⟨8, 10⟩, 1, 2, ⟨304, 336⟩⟩ k = some s1 →
      s1.playerNextCell ≠ s1.playerCell →
      openWorld.mapCollision.at? s1.playerNextCell = some (-1)) ∧
    (∀ k dt s2, frame openWorld ⟨⟨8, 10⟩, ⟨8, 10⟩, 1, 2, ⟨304, 336⟩⟩ k dt = some s2 →
      s2.playerCell ≠ ⟨8, 10⟩ →
      openWorld.mapCollision.at? s2.playerCell = some (-1))) :=
  ⟨run_open_right_half,
    never_enters_blocked openWorld [(keyRight, 1 / 2)] _ run_open_right_half⟩

/-- Clamping to a map with at least one column and one row yields a cell
inside the map. -/
theorem clampCell_inside (m : Grid) (p : Point) (hw : 1 ≤ m.width) (hh : 1 ≤ m.height) :
    m.inside (clampCell m p) := by
  unfold Grid.inside clampCell Clamp lastIndex
  simp only
  refine ⟨?_, ?_, ?_, ?_⟩ <;> split_ifs <;> omega

/-- C2: on a map of width at least 1 and height at least 1 that contains the
initial cell `(7, 10)`, both the player cell and the target cell lie inside
the map at the end of every frame. -/
theorem cells_stay_inside (w : World) (inputs : List (Keys × ℚ)) (s : State)
    (hw : 1 ≤ w.mapLayer1.width) (hh : 1 ≤ w.mapLayer1.height)
    (hx : 7 < w.mapLayer1.width) (hy : 10 < w.mapLayer1.height)
    (h : run w initState inputs = some s) :
    (0 ≤ s.playerCell.x ∧ s.playerCell.x ≤ (w.mapLayer1.width : Int) - 1 ∧
     0 ≤ s.playerCell.y ∧ s.playerCell.y ≤ (w.mapLayer1.height : Int) - 1) ∧
    (0 ≤ s.playerNextCell.x ∧ s.playerNextCell.x ≤ (w.mapLayer1.width : Int) - 1 ∧
     0 ≤ s.playerNextCell.y ∧ s.playerNextCell.y ≤ (w.mapLayer1.height : Int) - 1) := by
  have key : w.mapLayer1.inside s.playerCell ∧ w.mapLayer1.inside s.playerNextCell := by
    refine run_preserves w (fun s => w.mapLayer1.inside s.playerCell ∧
      w.mapLayer1.inside s.playerNextCell) ?_ inputs initState s ?_ h
    · intro s k dt s2 hP hf
      obtain ⟨s1, h1, rfl⟩ := frame_eq_some w s s2 k dt hf
      have h1P : w.mapLayer1.inside s1.playerCell ∧ w.mapLayer1.inside s1.playerNextCell := by
        obtain ⟨hcell, -, hc⟩ := inputStep_cases w s s1 k h1
        rcases hc with ⟨-, rfl⟩ | ⟨-, -, c, -, hc⟩
        · exact hP
        · rw [hcell]
          refine ⟨hP.1, ?_⟩
          rcases hc with ⟨-, hn, -⟩ | ⟨-, -, hn, -⟩ | ⟨-, -, hn, -⟩
          · rw [hn]; exact hP.1
          · rw [hn]; exact clampCell_inside _ _ hw hh
          · rw [hn]; exact hP.1
      obtain ⟨hnext, -, hc⟩ := walkStep_cases s1 dt
      rcases hc with ⟨-, he⟩ | ⟨-, -, hcell, -, -⟩ | ⟨-, -, hcell, -, -⟩
      · rw [he]; exact h1P
      · rw [hcell, hnext]; exact ⟨h1P.2, h1P.2⟩
      · rw [hcell, hnext]; exact h1P
    · simp only [initState, Grid.inside]
      omega
  obtain ⟨⟨a1, a2, a3, a4⟩, ⟨b1, b2, b3, b4⟩⟩ := key
  refine ⟨⟨a1, ?_, a3, ?_⟩, ⟨b1, ?_, b3, ?_⟩⟩ <;> omega

/-- Witness for C2: one step to the right on the 16 x 16 sample map. -/
theorem cells_stay_inside_witness :
    (1 ≤ openWorld.mapLayer1.width ∧ 1 ≤ openWorld.mapLayer1.height ∧
     7 < openWorld.mapLayer1.width ∧ 10 < openWorld.mapLayer1.height) ∧
    run openWorld initState [(keyRight, 1 / 2)]
      = some ⟨⟨8, 10⟩, ⟨8, 10⟩, 1, 2, ⟨304, 336⟩⟩ ∧
    (((0 : Int) ≤ 8 ∧ (8 : Int) ≤ (openWorld.mapLayer1.width : Int) - 1 ∧
     (0 : Int) ≤ 10 ∧ (10 : Int) ≤ (openWorld.mapLayer1.height : Int) - 1) ∧
    ((0 : Int) ≤ 8 ∧ (8 : Int) ≤ (openWorld.mapLayer1.width : Int) - 1 ∧
     (0 : Int) ≤ 10 ∧ (10 : Int) ≤ (openWorld.mapLayer1.height : Int) - 1)) :=
  ⟨by decide, run_open_right_half,
    cells_stay_inside openWorld [(keyRight, 1 / 2)] _ (by decide) (by decide) (by decide)
      (by decide) run_open_right_half⟩

/-- A well-formed grid can be read at every cell inside it. -/
theorem at?_isSome (g : Grid) (p : Point) (hwf : g.WF) (hp : g.inside p) :
    ∃ c, g.at? p = some c := by
  obtain ⟨hx0, hx, hy0, hy⟩ := hp
  have hlt : p.y.toNat * g.width + p.x.toNat < g.data.length := by
    rw [hwf]
    exact index_lt g.width g.height p.x.toNat p.y.toNat (by omega) (by omega)
  refine ⟨g.data[p.y.toNat * g.width + p.x.toNat], ?_⟩
  unfold Grid.at?
  rw [if_pos ⟨hx0, hx, hy0, hy⟩]
  exact List.getElem?_eq_getElem hlt

/-- C6: when the collision grid has the dimensions of the map and both are at
least 1 x 1, the cell used to index `mapCollision` lies inside the collision
grid for every player state and key combination; for a well-formed collision
grid the lookup therefore succeeds and the input block returns. -/
theorem collision_lookup_inside (w : World) (s : State) (k : Keys)
    (hwd : w.mapCollision.width = w.mapLayer1.width)
    (hht : w.mapCollision.height = w.mapLayer1.height)
    (hw : 1 ≤ w.mapLayer1.width) (hh : 1 ≤ w.mapLayer1.height) :
    (0 ≤ (lookupCell w s k).x ∧ (lookupCell w s k).x < w.mapCollision.width ∧
     0 ≤ (lookupCell w s k).y ∧ (lookupCell w s k).y < w.mapCollision.height) ∧
    (w.mapCollision.WF → ∃ s1, inputStep w s k = some s1) := by
  have hin : w.mapLayer1.inside (lookupCell w s k) := clampCell_inside _ _ hw hh
  have hin2 : w.mapCollision.inside (lookupCell w s k) := by
    unfold Grid.inside at hin ⊢
    rw [hwd, hht]
    exact hin
  refine ⟨hin2, ?_⟩
  intro hwf
  obtain ⟨c, hc⟩ := at?_isSome w.mapCollision _ hwf hin2
  unfold inputStep
  split_ifs with hrest
  · simp only [hc]
    split_ifs <;> exact ⟨_, rfl⟩
  · exact ⟨s, rfl⟩

/-- Witness for C6: the sample world at the initial state, Left and Up held. -/
theorem collision_lookup_inside_witness :
    (openWorld.mapCollision.width = openWorld.mapLayer1.width ∧
     openWorld.mapCollision.height = openWorld.mapLayer1.height ∧
     1 ≤ openWorld.mapLayer1.width ∧ 1 ≤ openWorld.mapLayer1.height) ∧
    ((0 ≤ (lookupCell openWorld initState keyLeftUp).x ∧
      (lookupCell openWorld initState keyLeftUp).x < openWorld.mapCollision.width ∧
      0 ≤ (lookupCell openWorld initState keyLeftUp).y ∧
      (lookupCell openWorld initState keyLeftUp).y < openWorld.mapCollision.height) ∧
     (openWorld.mapCollision.WF → ∃ s1, inputStep openWorld initState keyLeftUp = some s1)) :=
  ⟨by decide, collision_lookup_inside openWorld initState keyLeftUp rfl rfl (by decide)
    (by decide)⟩

/-- C11: while the player is moving the keys are ignored: the frame yields the
same state for any two key combinations, and it keeps the target cell and the
direction. -/
theorem keys_ignored_while_walking (w : World) (s : State) (k1 k2 : Keys) (dt : ℚ)
    (hwalk : s.playerCell ≠ s.playerNextCell) :
    frame w s k1 dt = frame w s k2 dt ∧
    ∃ s2, frame w s k1 dt = some s2 ∧ s2.playerNextCell = s.playerNextCell ∧
      s2.direction = s.direction := by
  have h1 : ∀ k, frame w s k dt = some (walkStep s dt) := by
    intro k
    simp only [frame, inputStep, if_neg hwalk, Option.map]
  refine ⟨by rw [h1 k1, h1 k2], walkStep s dt, h1 k1, ?_, ?_⟩
  · exact (walkStep_cases s dt).1
  · exact (walkStep_cases s dt).2.1

/-- Witness for C11: a player half way between two cells of the sample world. -/
theorem keys_ignored_while_walking_witness :
    (⟨7, 10⟩ : Point) ≠ ⟨8, 10⟩ ∧
    (frame openWorld ⟨⟨7, 10⟩, ⟨8, 10⟩, 1 / 2, 2, ⟨256, 336⟩⟩ keyLeftUp (1 / 8)
      = frame openWorld ⟨⟨7, 10⟩, ⟨8, 10⟩, 1 / 2, 2, ⟨256, 336⟩⟩ noKeys (1 / 8) ∧
    ∃ s2, frame openWorld ⟨⟨7, 10⟩, ⟨8, 10⟩, 1 / 2, 2, ⟨256, 336⟩⟩ keyLeftUp (1 / 8) = some s2 ∧
      s2.playerNextCell = ⟨8, 10⟩ ∧ s2.direction = 2) :=
  ⟨by decide, keys_ignored_while_walking openWorld ⟨⟨7, 10⟩, ⟨8, 10⟩, 1 / 2, 2, ⟨256, 336⟩⟩
    keyLeftUp noKeys (1 / 8) (by decide)⟩

/-- The key chain in closed form: the requested cell is the old one plus the
net input, the direction is the compass index of the net input if there is
one. -/
theorem keyStep_eq (k : Keys) (d : Int) (p : Point) :
    keyStep k d p =
      (if netX k = 0 ∧ netY k = 0 then d else compassIndex (netX k) (netY k),
       p.add ⟨netX k, netY k⟩) := by
  rcases k with ⟨l, r, u, dn⟩
  cases l <;> cases r <;> cases u <;> cases dn <;>
    simp [keyStep, leftArm, rightArm, upArm, downArm, netX, netY, compassIndex, Point.add] <;>
    omega

/-- The unit step of the compass index of a net input is that input. -/
theorem offset_compassIndex (k : Keys) (h : ¬ (netX k = 0 ∧ netY k = 0)) :
    offset (compassIndex (netX k) (netY k)) = ⟨netX k, netY k⟩ := by
  rcases k with ⟨l, r, u, dn⟩
  revert h
  cases l <;> cases r <;> cases u <;> cases dn <;>
    simp [netX, netY, compassIndex, offset]

/-- C15: a player at rest (on any cell), with a non-zero net input
whose requested neighbour, clamped to the map, is the own cell or a cell with
a collision entry other than `-1`: the frame changes nothing but the
direction, which becomes the compass index of the input. -/
theorem refused_move_turns (w : World) (s : State) (k : Keys) (dt : ℚ) (c : Int)
    (hrest : s.playerCell = s.playerNextCell)
    (hnet : ¬ (netX k = 0 ∧ netY k = 0))
    (hlook : w.mapCollision.at? (clampCell w.mapLayer1 (s.playerCell.add ⟨netX k, netY k⟩))
      = some c)
    (href : clampCell w.mapLayer1 (s.playerCell.add ⟨netX k, netY k⟩) = s.playerCell ∨ c ≠ -1) :
    frame w s k dt = some { s with direction := compassIndex (netX k) (netY k) } := by
  have hl : lookupCell w s k = clampCell w.mapLayer1 (s.playerCell.add ⟨netX k, netY k⟩) := by
    unfold lookupCell
    rw [keyStep_eq, hrest]
  have hd : (keyStep k s.direction s.playerNextCell).1 = compassIndex (netX k) (netY k) := by
    rw [keyStep_eq]
    simp only [if_neg hnet]
  have hi : inputStep w s k = some { s with direction := compassIndex (netX k) (netY k) } := by
    unfold inputStep
    rw [if_pos hrest]
    simp only [hl, hlook, hd]
    by_cases hc : c = -1
    · have hown := href.resolve_right (not_not.mpr hc)
      rw [if_neg (not_not.mpr hc), if_neg (not_not.mpr hown.symm), hown, ← hrest]
    · rw [if_pos hc, ← hrest]
  unfold frame
  rw [hi]
  simp only [Option.map]
  congr 1
  unfold walkStep
  rw [if_neg (not_not.mpr hrest)]

/-- Witness for C15: at the left edge of the sample map, Left is refused. -/
theorem refused_move_turns_witness :
    (edgeState.playerCell = edgeState.playerNextCell ∧
     ¬ (netX keyLeft = 0 ∧ netY keyLeft = 0) ∧
     openWorld.mapCollision.at?
        (clampCell openWorld.mapLayer1 (edgeState.playerCell.add ⟨netX keyLeft, netY keyLeft⟩))
      = some (-1) ∧
     (clampCell openWorld.mapLayer1 (edgeState.playerCell.add ⟨netX keyLeft, netY keyLeft⟩)
        = edgeState.playerCell ∨ (-1 : Int) ≠ -1)) ∧
    frame openWorld edgeState keyLeft (1 / 8)
      = some { edgeState with direction := compassIndex (netX keyLeft) (netY keyLeft) } :=
  ⟨⟨rfl, by decide, by set_option maxRecDepth 100000 in decide, Or.inl (by decide)⟩,
    refused_move_turns openWorld edgeState keyLeft (1 / 8) (-1) rfl (by decide)
      (by set_option maxRecDepth 100000 in decide) (Or.inl (by decide))⟩

/-- Clamping leaves a cell inside the map where it is. -/
theorem clampCell_of_inside (m : Grid) (p : Point) (hp : m.inside p) : clampCell m p = p := by
  obtain ⟨hx0, hx, hy0, hy⟩ := hp
  have h1 : Clamp p.x 0 (lastIndex m.width) = p.x := by
    unfold Clamp lastIndex
    split_ifs <;> omega
  have h2 : Clamp p.y 0 (lastIndex m.height) = p.y := by
    unfold Clamp lastIndex
    split_ifs <;> omega
  unfold clampCell
  rw [h1, h2]

/-- C16, as stated, fails: at the left edge of the sample map Left and Up
start a walk to the cell straight above while the player faces north-west. -/
theorem walk_follows_facing_counterexample :
    edgeState.playerCell = edgeState.playerNextCell ∧
    openWorld.mapLayer1.inside edgeState.playerCell ∧
    inputStep openWorld edgeState keyLeftUp = some ⟨⟨0, 5⟩, ⟨0, 4⟩, 0, 7, ⟨16, 176⟩⟩ ∧
    (⟨0, 4⟩ : Point) ≠ ⟨0, 5⟩ ∧
    (⟨0, 4⟩ : Point) ≠ (⟨0, 5⟩ : Point).add (offset 7) := by
  refine ⟨rfl, by decide, ?_, by decide, by decide⟩
  set_option maxRecDepth 100000 in decide

/-- C16, amended: for a player at rest on a cell inside the map, whenever the
input block starts a walk, the target is the player cell plus the unit step
of the new direction, clamped to the map; it is exactly that neighbour
whenever the neighbour lies inside the map. -/
theorem walk_follows_facing_clamped (w : World) (s s1 : State) (k : Keys)
    (hrest : s.playerCell = s.playerNextCell)
    (hin : w.mapLayer1.inside s.playerCell)
    (h : inputStep w s k = some s1)
    (hne : s1.playerNextCell ≠ s1.playerCell) :
    s1.playerNextCell = clampCell w.mapLayer1 (s1.playerCell.add (offset s1.direction)) ∧
    (w.mapLayer1.inside (s1.playerCell.add (offset s1.direction)) →
      s1.playerNextCell = s1.playerCell.add (offset s1.direction)) := by
  obtain ⟨hcell, -, hc⟩ := inputStep_cases w s s1 k h
  have hl : lookupCell w s k = clampCell w.mapLayer1 (s.playerCell.add ⟨netX k, netY k⟩) := by
    unfold lookupCell
    rw [keyStep_eq, hrest]
  have main : s1.playerNextCell
      = clampCell w.mapLayer1 (s1.playerCell.add (offset s1.direction)) := by
    rcases hc with ⟨hw, -⟩ | ⟨-, hd, c, -, hc⟩
    · exact absurd hrest hw
    · rcases hc with ⟨-, hn, -⟩ | ⟨-, hne2, hn, -⟩ | ⟨-, -, hn, -⟩
      · exact absurd (hn.trans hcell.symm) hne
      · have hnet : ¬ (netX k = 0 ∧ netY k = 0) := by
          intro h0
          apply hne2
          rw [hl, h0.1, h0.2]
          have : s.playerCell.add ⟨0, 0⟩ = s.playerCell := by
            simp [Point.add]
          rw [this, clampCell_of_inside _ _ hin]
        rw [hn, hl, hd, keyStep_eq]
        simp only [if_neg hnet]
        rw [offset_compassIndex k hnet, hcell]
      · exact absurd (hn.trans hcell.symm) hne
  refine ⟨main, ?_⟩
  intro hin2
  rw [main, clampCell_of_inside _ _ hin2]

/-- Witness for the amended C16 at the left edge of the sample map. -/
theorem walk_follows_facing_clamped_witness :
    (edgeState.playerCell = edgeState.playerNextCell ∧
     openWorld.mapLayer1.inside edgeState.playerCell ∧
     inputStep openWorld edgeState keyLeftUp = some ⟨⟨0, 5⟩, ⟨0, 4⟩, 0, 7, ⟨16, 176⟩⟩ ∧
     (⟨0, 4⟩ : Point) ≠ ⟨0, 5⟩) ∧
    ((⟨0, 4⟩ : Point) = clampCell openWorld.mapLayer1 ((⟨0, 5⟩ : Point).add (offset 7)) ∧
     (openWorld.mapLayer1.inside ((⟨0, 5⟩ : Point).add (offset 7)) →
      (⟨0, 4⟩ : Point) = (⟨0, 5⟩ : Point).add (offset 7))) :=
  ⟨⟨rfl, by decide, by set_option maxRecDepth 100000 in decide, by decide⟩,
    walk_follows_facing_clamped openWorld edgeState ⟨⟨0, 5⟩, ⟨0, 4⟩, 0, 7, ⟨16, 176⟩⟩ keyLeftUp
      rfl (by decide) (by set_option maxRecDepth 100000 in decide) (by decide)⟩

/-- C13: for a tile index `v` with `0 ≤ v < 64` the source origin computed by
`DrawMapChips` lies in `[0, 224] x [0, 224]`, and `v` is recovered from it as
`(sy / 32) * 8 + sx / 32`; hence two indices in that range with the same
origin are equal. -/
theorem tile_origin_in_sheet (v : Int) (h0 : 0 ≤ v) (h1 : v < 64) :
    (0 ≤ chipX v ∧ chipX v ≤ 224 ∧ 0 ≤ chipY v ∧ chipY v ≤ 224) ∧
    v = (chipY v / 32) * 8 + chipX v / 32 ∧
    (∀ u : Int, 0 ≤ u → u < 64 → chipX u = chipX v → chipY u = chipY v → u = v) := by
  have hm : v.tmod 8 = v % 8 := Int.tmod_eq_emod h0 (by decide)
  have hd : v.tdiv 8 = v / 8 := Int.tdiv_eq_ediv h0 (by decide)
  have hx : chipX v = (v % 8) * 32 := by
    simp only [chipX, ChipNumX, ChipSize, hm, wrapInt]
    omega
  have hy : chipY v = (v / 8) * 32 := by
    simp only [chipY, ChipNumY, ChipSize, hd, wrapInt]
    omega
  refine ⟨?_, ?_, ?_⟩
  · rw [hx, hy]; omega
  · rw [hx, hy]; omega
  · intro u hu0 hu1 ex ey
    have hmu : u.tmod 8 = u % 8 := Int.tmod_eq_emod hu0 (by decide)
    have hdu : u.tdiv 8 = u / 8 := Int.tdiv_eq_ediv hu0 (by decide)
    have hxu : chipX u = (u % 8) * 32 := by
      simp only [chipX, ChipNumX, ChipSize, hmu, wrapInt]
      omega
    have hyu : chipY u = (u / 8) * 32 := by
      simp only [chipY, ChipNumY, ChipSize, hdu, wrapInt]
      omega
    rw [hx, hxu] at ex
    rw [hy, hyu] at ey
    omega

/-- Witness for C13 at tile 27. -/
theorem tile_origin_in_sheet_witness :
    ((0 : Int) ≤ 27 ∧ (27 : Int) < 64) ∧
    ((0 ≤ chipX 27 ∧ chipX 27 ≤ 224 ∧ 0 ≤ chipY 27 ∧ chipY 27 ≤ 224) ∧
    27 = (chipY 27 / 32) * 8 + chipX 27 / 32 ∧
    (∀ u : Int, 0 ≤ u → u < 64 → chipX u = chipX 27 → chipY u = chipY 27 → u = 27)) :=
  ⟨by decide, tile_origin_in_sheet 27 (by decide) (by decide)⟩

/-! ## Walk timing -/

/-- A run over a concatenation is the run over the first part followed by the
run over the second. -/
theorem run_append (w : World) (a b : List (Keys × ℚ)) (s : State) :
    run w s (a ++ b) = (run w s a).bind (fun s1 => run w s1 b) := by
  induction a generalizing s with
  | nil => simp [run]
  | cons i rest ih =>
    obtain ⟨k, dt⟩ := i
    simp only [List.cons_append, run]
    cases frame w s k dt with
    | none => simp
    | some s1 => exact ih s1

/-- While the player is walking, a frame is the walking block alone. -/
theorem frame_walking (w : World) (s : State) (k : Keys) (dt : ℚ)
    (hwalk : s.playerCell ≠ s.playerNextCell) : frame w s k dt = some (walkStep s dt) := by
  simp only [frame, inputStep, if_neg hwalk, Option.map]

/-- Total time of a list of frames extended by one frame in front. -/
theorem totalTime_cons (k : Keys) (dt : ℚ) (rest : List (Keys × ℚ)) :
    totalTime ((k, dt) :: rest) = dt + totalTime rest := by
  simp [totalTime]

/-- Total time of a list of frames extended by one frame at the end. -/
theorem totalTime_concat (l : List (Keys × ℚ)) (i : Keys × ℚ) :
    totalTime (l ++ [i]) = totalTime l + i.2 := by
  simp [totalTime]

/-- The total time of frames with non-negative delta times is non-negative. -/
theorem totalTime_nonneg (l : List (Keys × ℚ)) (hnn : ∀ i ∈ l, 0 ≤ i.2) :
    0 ≤ totalTime l := by
  induction l with
  | nil => simp [totalTime]
  | cons i rest ih =>
    obtain ⟨k, dt⟩ := i
    rw [totalTime_cons]
    have h1 : 0 ≤ dt := hnn (k, dt) (List.mem_cons_self _ _)
    have h2 := ih (fun i hi => hnn i (List.mem_cons_of_mem _ hi))
    linarith

/-- A walking player keeps walking, with the progress growing by four times
the elapsed time, for as long as that stays below `1`. -/
theorem run_walking_partial (w : World) (rest : List (Keys × ℚ)) :
    ∀ (s : State) (k : Keys) (dt : ℚ), s.playerCell ≠ s.playerNextCell →
      (∀ i ∈ rest, 0 ≤ i.2) → s.walkProgress + 4 * (dt + totalTime rest) < 1 →
      ∃ s2, run w s ((k, dt) :: rest) = some s2 ∧ s2.playerCell = s.playerCell ∧
        s2.playerNextCell = s.playerNextCell ∧
        s2.walkProgress = s.walkProgress + 4 * (dt + totalTime rest) := by
  induction rest with
  | nil =>
    intro s k dt hwalk _ hlt
    have ht : totalTime ([] : List (Keys × ℚ)) = 0 := by simp [totalTime]
    rw [ht, add_zero] at hlt ⊢
    have hadv : advanced s dt < 1 := by
      unfold advanced walkSpeed
      linarith
    obtain ⟨hnext, -, hc⟩ := walkStep_cases s dt
    rcases hc with ⟨he, -⟩ | ⟨-, hge, -⟩ | ⟨-, -, hcell, hw, -⟩
    · exact absurd he hwalk
    · exact absurd hadv (not_lt.mpr hge)
    · refine ⟨walkStep s dt, ?_, hcell, hnext, ?_⟩
      · simp only [run, frame_walking w s k dt hwalk]
      · rw [hw]
        unfold advanced walkSpeed
        ring
  | cons i rest ih =>
    intro s k dt hwalk hnn hlt
    obtain ⟨k1, dt1⟩ := i
    rw [totalTime_cons] at hlt ⊢
    have h1 : 0 ≤ dt1 := hnn (k1, dt1) (List.mem_cons_self _ _)
    have hnn2 : ∀ i ∈ rest, 0 ≤ i.2 := fun i hi => hnn i (List.mem_cons_of_mem _ hi)
    have h2 : 0 ≤ totalTime rest := totalTime_nonneg rest hnn2
    have hadv : advanced s dt < 1 := by
      unfold advanced walkSpeed
      linarith
    obtain ⟨hnext, -, hc⟩ := walkStep_cases s dt
    rcases hc with ⟨he, -⟩ | ⟨-, hge, -⟩ | ⟨-, -, hcell, hw, -⟩
    · exact absurd he hwalk
    · exact absurd hadv (not_lt.mpr hge)
    · have hwalk2 : (walkStep s dt).playerCell ≠ (walkStep s dt).playerNextCell := by
        rw [hcell, hnext]; exact hwalk
      have hlt2 : (walkStep s dt).walkProgress + 4 * (dt1 + totalTime rest) < 1 := by
        rw [hw]
        unfold advanced walkSpeed
        linarith
      obtain ⟨s2, hrun, e1, e2, e3⟩ := ih (walkStep s dt) k1 dt1 hwalk2 hnn2 hlt2
      refine ⟨s2, ?_, e1.trans hcell, e2.trans hnext, ?_⟩
      · rw [run, frame_walking w s k dt hwalk]
        exact hrun
      · rw [e3, hw]
        unfold advanced walkSpeed
        ring

/-- C12: a walk from `c` to `t` that starts in a frame with delta `d0`,
followed by frames with non-negative deltas: while four times the elapsed
time is below `1` the player cell is still `c`, the target is `t` and the
progress is four times the elapsed time; at the end of the first frame at
which it reaches `1` the player stands on `t` with progress `1`. -/
theorem walk_timing (w : World) (s s1 : State) (k0 : Keys) (d0 : ℚ)
    (rest : List (Keys × ℚ))
    (hrest : s.playerCell = s.playerNextCell)
    (hstart : inputStep w s k0 = some s1)
    (hwalk : s1.playerNextCell ≠ s1.playerCell)
    (hnn : ∀ i ∈ rest, 0 ≤ i.2) :
    (4 * (d0 + totalTime rest) < 1 →
      ∃ s2, run w s ((k0, d0) :: rest) = some s2 ∧ s2.playerCell = s.playerCell ∧
        s2.playerNextCell = s1.playerNextCell ∧
        s2.walkProgress = 4 * (d0 + totalTime rest)) ∧
    (1 ≤ 4 * (d0 + totalTime rest) →
      (rest = [] ∨ 4 * (d0 + totalTime rest.dropLast) < 1) →
      ∃ s2, run w s ((k0, d0) :: rest) = some s2 ∧ s2.playerCell = s1.playerNextCell ∧
        s2.playerNextCell = s1.playerNextCell ∧ s2.walkProgress = 1) := by
  obtain ⟨hcell, -, hc⟩ := inputStep_cases w s s1 k0 hstart
  have hw0 : s1.walkProgress = 0 := by
    rcases hc with ⟨hw, -⟩ | ⟨-, -, c, -, hc⟩
    · exact absurd hrest hw
    · rcases hc with ⟨-, hn, -⟩ | ⟨-, -, -, hw⟩ | ⟨-, -, hn, -⟩
      · exact absurd (hn.trans hcell.symm) hwalk
      · exact hw
      · exact absurd (hn.trans hcell.symm) hwalk
  have hwalk1 : s1.playerCell ≠ s1.playerNextCell := fun e => hwalk e.symm
  have hfirst : ∀ l, run w s ((k0, d0) :: l) = run w s1 ((k0, d0) :: l) := by
    intro l
    simp only [run, frame, hstart, Option.map]
    have := frame_walking w s1 k0 d0 hwalk1
    simp only [frame, Option.map] at this
    rw [inputStep, if_neg hwalk1]
  constructor
  · intro hlt
    have hlt1 : s1.walkProgress + 4 * (d0 + totalTime rest) < 1 := by
      rw [hw0]; linarith
    obtain ⟨s2, hrun, e1, e2, e3⟩ := run_walking_partial w rest s1 k0 d0 hwalk1 hnn hlt1
    refine ⟨s2, (hfirst rest).trans hrun, e1.trans hcell, e2, ?_⟩
    rw [e3, hw0, zero_add]
  · intro hge hfst
    rw [hfirst rest]
    rcases List.eq_nil_or_concat rest with hnil | ⟨init, last, hcat0⟩
    · subst hnil
      have ht : totalTime ([] : List (Keys × ℚ)) = 0 := by simp [totalTime]
      rw [ht, add_zero] at hge
      have hadv : 1 ≤ advanced s1 d0 := by
        unfold advanced walkSpeed
        rw [hw0]; linarith
      obtain ⟨hnext, -, hc2⟩ := walkStep_cases s1 d0
      rcases hc2 with ⟨he, -⟩ | ⟨-, -, hcell2, hw2, -⟩ | ⟨-, hlt, -⟩
      · exact absurd he hwalk1
      · refine ⟨walkStep s1 d0, ?_, hcell2, hnext, hw2⟩
        simp only [run, frame_walking w s1 k0 d0 hwalk1]
      · exact absurd hadv (not_le.mpr hlt)
    · have hcat : rest = init ++ [last] := by
        rw [hcat0, List.concat_eq_append]
      have hne : rest ≠ [] := by
        rw [hcat]; simp
      have hdl : rest.dropLast = init := by
        rw [hcat]; simp
      have hlt : 4 * (d0 + totalTime init) < 1 := by
        rcases hfst with h | h
        · exact absurd h hne
        · rw [hdl] at h; exact h
      have hnn1 : ∀ i ∈ init, 0 ≤ i.2 := by
        intro i hi
        apply hnn i
        rw [hcat]
        exact List.mem_append_left _ hi
      have hlt1 : s1.walkProgress + 4 * (d0 + totalTime init) < 1 := by
        rw [hw0]; linarith
      obtain ⟨s2, hrun, e1, e2, e3⟩ := run_walking_partial w init s1 k0 d0 hwalk1 hnn1 hlt1
      obtain ⟨kl, dl⟩ := last
      have hwalk2 : s2.playerCell ≠ s2.playerNextCell := by
        rw [e1, e2]; exact hwalk1
      have htot : totalTime rest = totalTime init + dl := by
        rw [hcat, totalTime_concat]
      have hadv : 1 ≤ advanced s2 dl := by
        unfold advanced walkSpeed
        rw [e3, hw0]
        rw [htot] at hge
        linarith
      have hsplit : (k0, d0) :: rest = ((k0, d0) :: init) ++ [(kl, dl)] := by
        rw [hcat]; rfl
      rw [hsplit, run_append, hrun]
      simp only [Option.bind, run, frame_walking w s2 kl dl hwalk2]
      obtain ⟨hnext, -, hc2⟩ := walkStep_cases s2 dl
      rcases hc2 with ⟨he, -⟩ | ⟨-, -, hcell2, hw2, -⟩ | ⟨-, hlt2, -⟩
      · exact absurd he hwalk2
      · exact ⟨walkStep s2 dl, rfl, hcell2.trans e2, hnext.trans e2, hw2⟩
      · exact absurd hadv (not_le.mpr hlt2)

/-- Witness for C12: a walk started with a frame of 1/8 s, then one more frame
of 1/8 s, which completes it. -/
theorem walk_timing_witness :
    (initState.playerCell = initState.playerNextCell ∧
     inputStep openWorld initState keyRight = some ⟨⟨7, 10⟩, ⟨8, 10⟩, 0, 2, ⟨240, 336⟩⟩ ∧
     (⟨8, 10⟩ : Point) ≠ ⟨7, 10⟩ ∧
     (∀ i ∈ [(noKeys, (1 / 8 : ℚ))], 0 ≤ i.2)) ∧
    ((4 * (1 / 8 + totalTime [(noKeys, (1 / 8 : ℚ))]) < 1 →
      ∃ s2, run openWorld initState ((keyRight, 1 / 8) :: [(noKeys, 1 / 8)]) = some s2 ∧
        s2.playerCell = initState.playerCell ∧ s2.playerNextCell = ⟨8, 10⟩ ∧
        s2.walkProgress = 4 * (1 / 8 + totalTime [(noKeys, (1 / 8 : ℚ))])) ∧
    (1 ≤ 4 * (1 / 8 + totalTime [(noKeys, (1 / 8 : ℚ))]) →
      ([(noKeys, (1 / 8 : ℚ))] = [] ∨
        4 * (1 / 8 + totalTime [(noKeys, (1 / 8 : ℚ))].dropLast) < 1) →
      ∃ s2, run openWorld initState ((keyRight, 1 / 8) :: [(noKeys, 1 / 8)]) = some s2 ∧
        s2.playerCell = ⟨8, 10⟩ ∧ s2.playerNextCell = ⟨8, 10⟩ ∧ s2.walkProgress = 1)) :=
  ⟨⟨rfl, inputStep_open_right, by decide, by simp⟩,
    walk_timing openWorld initState ⟨⟨7, 10⟩, ⟨8, 10⟩, 0, 2, ⟨240, 336⟩⟩ keyRight (1 / 8)
      [(noKeys, 1 / 8)] rfl inputStep_open_right (by decide) (by simp)⟩

/-! ## Drawing -/

/-- Distinct rows never share a row-major index. -/
theorem index_ne_of_row_ne (W x y x' y' : Nat) (hx : x < W) (hx' : x' < W) (h : y' ≠ y) :
    y * W + x ≠ y' * W + x' := by
  intro e
  rcases Nat.lt_or_gt_of_ne h with hlt | hgt
  · have h1 : (y' + 1) * W ≤ y * W := Nat.mul_le_mul_right W hlt
    have h2 : (y' + 1) * W = y' * W + W := by ring
    omega
  · have h1 : (y + 1) * W ≤ y' * W := Nat.mul_le_mul_right W hgt
    have h2 : (y + 1) * W = y * W + W := by ring
    omega

/-- The inner loop of `LoadCSV` run over the first `n` columns of row `y`
succeeds, stores the CSV cells of that row and leaves the other rows alone. -/
theorem loadRow_prefix (csv : CSVData) (W y : Nat) (row : List Int)
    (hrow : csv.rows[y]? = some row) (hlen : W ≤ row.length)
    (g : Grid) (hgw : g.width = W) (hroom : y * W + W ≤ g.data.length)
    (n : Nat) (hn : n ≤ W) :
    ∃ g2, (List.range n).foldlM (loadCell csv y) g = .ok g2 ∧ g2.width = W ∧
      g2.height = g.height ∧ g2.data.length = g.data.length ∧
      (∀ x, x < n → g2.data[y * W + x]? = row[x]?) ∧
      (∀ y2 x2, x2 < W → y2 ≠ y → g2.data[y2 * W + x2]? = g.data[y2 * W + x2]?) := by
  induction n with
  | zero =>
    exact ⟨g, rfl, hgw, rfl, rfl, fun x hx => absurd hx (Nat.not_lt_zero x),
      fun _ _ _ _ => rfl⟩
  | succ n ih =>
    have hx : n < W := hn
    obtain ⟨g1, hrun, hw1, hh1, hl1, hfill, hother⟩ := ih (Nat.le_of_lt hx)
    have hv : row[n]? = some row[n] := List.getElem?_eq_getElem (by omega)
    have hget : csv.get y n = .ok row[n] := by
      simp only [CSVData.get, hrow, hv]
    have hcell : loadCell csv y g1 n = .ok (g1.set n y row[n]) := by
      simp only [loadCell, hget]
    refine ⟨g1.set n y row[n], ?_, hw1, hh1, ?_, ?_, ?_⟩
    · rw [List.range_succ, List.foldlM_append, hrun]
      simp only [List.foldlM_cons, List.foldlM_nil, hcell, bind, Except.bind, pure, Except.pure]
    · simp only [Grid.set, List.length_set, hl1]
    · intro x hxn
      simp only [Grid.set, hw1]
      by_cases hxe : x = n
      · subst hxe
        rw [List.getElem?_set_self (by omega), hv]
      · rw [List.getElem?_set_ne (by omega)]
        exact hfill x (by omega)
    · intro y2 x2 hx2 hy2
      simp only [Grid.set, hw1]
      rw [List.getElem?_set_ne (index_ne_of_row_ne W n y x2 y2 hx hx2 hy2)]
      exact hother y2 x2 hx2 hy2

/-- The outer loop of `LoadCSV` run over the first `m` rows succeeds and
stores the CSV cells of those rows. -/
theorem loadRows_prefix (csv : CSVData) (W : Nat)
    (hall : ∀ r ∈ csv.rows, W ≤ r.length) (m : Nat) (hm : m ≤ csv.rows.length) :
    ∃ g2, (List.range m).foldlM (loadRow csv W) (Grid.mk0 W csv.rows.length) = .ok g2 ∧
      g2.width = W ∧ g2.height = csv.rows.length ∧
      g2.data.length = W * csv.rows.length ∧
      (∀ y x, y < m → x < W → ∃ row, csv.rows[y]? = some row ∧
        g2.data[y * W + x]? = row[x]?) := by
  induction m with
  | zero =>
    refine ⟨Grid.mk0 W csv.rows.length, rfl, rfl, rfl, ?_, ?_⟩
    · simp [Grid.mk0]
    · intro y x hy
      exact absurd hy (Nat.not_lt_zero y)
  | succ m ih =>
    have hy : m < csv.rows.length := hm
    obtain ⟨g1, hrun, hw1, hh1, hl1, hfill⟩ := ih (Nat.le_of_lt hy)
    have hrow : csv.rows[m]? = some csv.rows[m] := List.getElem?_eq_getElem hy
    have hlen : W ≤ (csv.rows[m]).length := hall _ (List.getElem_mem hy)
    have hroom : m * W + W ≤ g1.data.length := by
      rw [hl1]
      have h1 : (m + 1) * W ≤ csv.rows.length * W := Nat.mul_le_mul_right W hy
      have h2 : (m + 1) * W = m * W + W := by ring
      have h3 : csv.rows.length * W = W * csv.rows.length := Nat.mul_comm _ _
      omega
    obtain ⟨g2, hrun2, hw2, hh2, hl2, hfill2, hother2⟩ :=
      loadRow_prefix csv W m csv.rows[m] hrow hlen g1 hw1 hroom W le_rfl
    refine ⟨g2, ?_, hw2, hh2.trans hh1, hl2.trans hl1, ?_⟩
    · rw [List.range_succ, List.foldlM_append, hrun]
      simp only [List.foldlM_cons, List.foldlM_nil, loadRow, hrun2, bind, Except.bind, pure,
        Except.pure]
    · intro y x hym hxW
      by_cases hye : y = m
      · subst hye
        exact ⟨csv.rows[y], hrow, hfill2 x hxW⟩
      · obtain ⟨row, hr, hd⟩ := hfill y x (by omega) hxW
        refine ⟨row, hr, ?_⟩
        rw [hother2 y x hxW hye]
        exact hd

/-- C10: for a successfully read CSV with at least one row, in which every
row has at least as many columns as row 0, `LoadCSV` returns a grid whose
width is the column count of row 0, whose height is the row count, and whose
cell `(x, y)` holds the integer of row `y`, column `x` of the CSV; for a CSV
that failed to load it fails with its error. -/
theorem LoadCSV_contents (csv : CSVData) :
    (csv.loaded = true → ∀ row0 : List Int, csv.rows[0]? = some row0 →
      (∀ r ∈ csv.rows, row0.length ≤ r.length) →
      ∃ g, LoadCSV csv = .ok g ∧ g.width = row0.length ∧ g.height = csv.rows.length ∧
        g.WF ∧
        ∀ y x, y < g.height → x < g.width →
          ∃ row v, csv.rows[y]? = some row ∧ row[x]? = some v ∧ g.get? x y = some v) ∧
    (csv.loaded = false → LoadCSV csv = .error .readFailed) := by
  constructor
  · intro hl row0 h0 hall
    have hcols : csv.columns 0 = row0.length := by
      simp only [CSVData.columns, h0]
    obtain ⟨g, hrun, hw, hh, hlen, hfill⟩ :=
      loadRows_prefix csv row0.length hall csv.rows.length le_rfl
    refine ⟨g, ?_, hw, hh, ?_, ?_⟩
    · unfold LoadCSV
      simp only [hl, hcols]
      exact hrun
    · unfold Grid.WF
      rw [hlen, hw, hh]
    · intro y x hy hx
      rw [hh] at hy
      rw [hw] at hx
      obtain ⟨row, hr, hd⟩ := hfill y x hy hx
      have hmem : row ∈ csv.rows := by
        obtain ⟨hlt, he⟩ := List.getElem?_eq_some.mp hr
        rw [← he]
        exact List.getElem_mem hlt
      have hrl : row0.length ≤ row.length := hall row hmem
      have hv : row[x]? = some row[x] := List.getElem?_eq_getElem (by omega)
      have hgx : x < g.width := by rw [hw]; exact hx
      have hgy : y < g.height := by rw [hh]; exact hy
      have hidx : y * g.width + x = y * row0.length + x := by rw [hw]
      refine ⟨row, row[x], hr, hv, ?_⟩
      unfold Grid.get?
      rw [if_pos ⟨hgx, hgy⟩, hidx, hd, hv]
  · intro hl
    unfold LoadCSV
    simp [hl]

/-- Witness for C10: a CSV of two rows, the second longer than the first, and
a CSV that failed to load. -/
theorem LoadCSV_contents_witness :
    LoadCSV ⟨true, [[1, 2], [3, -1, 7]]⟩ = .ok ⟨2, 2, [1, 2, 3, -1]⟩ ∧
    LoadCSV ⟨false, []⟩ = .error .readFailed ∧
    (∃ g, LoadCSV ⟨true, [[1, 2], [3, -1, 7]]⟩ = .ok g ∧ g.width = [(1 : Int), 2].length ∧
      g.height = (⟨true, [[1, 2], [3, -1, 7]]⟩ : CSVData).rows.length ∧ g.WF ∧
      ∀ y x, y < g.height → x < g.width →
        ∃ row v, (⟨true, [[1, 2], [3, -1, 7]]⟩ : CSVData).rows[y]? = some row ∧
          row[x]? = some v ∧ g.get? x y = some v) :=
  ⟨rfl, (LoadCSV_contents ⟨false, []⟩).2 rfl,
    (LoadCSV_contents ⟨true, [[1, 2], [3, -1, 7]]⟩).1 rfl [1, 2] rfl (by decide)⟩

/-! ## The camera during and after a walk -/

/-- First 0.1 s frame of a walk to the right from the initial cell. -/
theorem frame_open_tenth_first :
    frame openWorld initState keyRight (1 / 10)
      = some ⟨⟨7, 10⟩, ⟨8, 10⟩, 2 / 5, 2, ⟨252, 336⟩⟩ := by
  simp only [frame, inputStep_open_right, Option.map]
  norm_num [walkStep, advanced, walkSpeed, cameraTarget, asPoint, ChipSize]
  rfl

/-- Second 0.1 s frame of that walk. -/
theorem frame_open_tenth_second :
    frame openWorld ⟨⟨7, 10⟩, ⟨8, 10⟩, 2 / 5, 2, ⟨252, 336⟩⟩ noKeys (1 / 10)
      = some ⟨⟨7, 10⟩, ⟨8, 10⟩, 4 / 5, 2, ⟨265, 336⟩⟩ := by
  rw [frame_walking _ _ _ _ (by decide)]
  norm_num [walkStep, advanced, walkSpeed, cameraTarget, asPoint, ChipSize]
  rfl

/-- Third 0.1 s frame of that walk, which completes it. -/
theorem frame_open_tenth_third :
    frame openWorld ⟨⟨7, 10⟩, ⟨8, 10⟩, 4 / 5, 2, ⟨265, 336⟩⟩ noKeys (1 / 10)
      = some ⟨⟨8, 10⟩, ⟨8, 10⟩, 1, 2, ⟨278, 336⟩⟩ := by
  rw [frame_walking _ _ _ _ (by decide)]
  norm_num [walkStep, advanced, walkSpeed, cameraTarget, asPoint, ChipSize]
  rfl

/-- C7 fails on the code: in the third of three 0.1 s frames of a walk the
factor handed to `lerp` is `6/5`, larger than `1`, and the camera is placed
beyond the centre of the target cell. -/
theorem lerp_factor_exceeds_one :
    run openWorld initState [(keyRight, 1 / 10), (noKeys, 1 / 10)]
      = some ⟨⟨7, 10⟩, ⟨8, 10⟩, 4 / 5, 2, ⟨265, 336⟩⟩ ∧
    advanced ⟨⟨7, 10⟩, ⟨8, 10⟩, 4 / 5, 2, ⟨265, 336⟩⟩ (1 / 10) = 6 / 5 ∧
    ¬ (advanced ⟨⟨7, 10⟩, ⟨8, 10⟩, 4 / 5, 2, ⟨265, 336⟩⟩ (1 / 10) ≤ 1) ∧
    (walkStep ⟨⟨7, 10⟩, ⟨8, 10⟩, 4 / 5, 2, ⟨265, 336⟩⟩ (1 / 10)).camera
      = cameraTarget ⟨7, 10⟩ ⟨8, 10⟩ (6 / 5) ∧
    cameraTarget ⟨7, 10⟩ ⟨8, 10⟩ (6 / 5) = ⟨278, 336⟩ ∧
    cellCentre ⟨8, 10⟩ = ⟨272, 336⟩ := by
  refine ⟨?_, ?_, ?_, ?_, ?_, by decide⟩
  · simp only [run, frame_open_tenth_first, frame_open_tenth_second]
  · norm_num [advanced, walkSpeed]
  · norm_num [advanced, walkSpeed]
  · norm_num [walkStep, advanced, walkSpeed]
  · norm_num [cameraTarget, asPoint, ChipSize]
    rfl

/-- C8 fails on the code: after three 0.1 s frames the player is at rest on
`(8, 10)`, whose centre is `(272, 336)`, while the camera centre last set is
`(278, 336)`. -/
theorem camera_off_centre_at_rest :
    run openWorld initState [(keyRight, 1 / 10), (noKeys, 1 / 10), (noKeys, 1 / 10)]
      = some ⟨⟨8, 10⟩, ⟨8, 10⟩, 1, 2, ⟨278, 336⟩⟩ ∧
    cellCentre ⟨8, 10⟩ = ⟨272, 336⟩ ∧
    (⟨278, 336⟩ : Point) ≠ cellCentre ⟨8, 10⟩ := by
  refine ⟨?_, by decide, by decide⟩
  simp only [run, frame_open_tenth_first, frame_open_tenth_second, frame_open_tenth_third]

end Rpg12
